import Mathlib

/-!
Shallow embedding of the contour-analysis core of the
agnor-slide-image-examiner repository (src/utils/contour_analysis.py).

Geometric primitives that live in OpenCV/scipy (rasterized pixel counts,
point-in-polygon tests, convex hulls, spline fitting, image drawing) are
modelled as explicit function parameters; the list processing, partition
logic, record construction and aggregation arithmetic are translated
directly from the Python source.  Python floats are modelled as `Rat`;
fallible Python code (raising) is modelled with `Except String`.
-/

/-- A contour point, as in the `[[x, y]]` entries of an OpenCV contour. -/
abbrev Pt := Int × Int

/-- A contour: the ordered list of its boundary points. -/
abbrev Contour := List Pt

/-- Kernel-evaluable product of rationals (`Rat.mul` is `@[irreducible]`
in this toolchain; `ratMul_eq` below states it equals `a * b`). -/
def ratMul (a b : Rat) : Rat := mkRat (a.num * b.num) (a.den * b.den)

/-- Kernel-evaluable quotient of rationals; `ratDiv_eq` states it equals
`a / b`.  Models Python float division (and `x / 0` never occurs on the
paths the claims take; see the `Except` errors below). -/
def ratDiv (a b : Rat) : Rat := Rat.divInt (a.num * (b.den : Int)) ((a.den : Int) * b.num)

/-- Kernel-evaluable sum of rationals; `ratAdd_eq` states it equals `a + b`. -/
def ratAdd (a b : Rat) : Rat := mkRat (a.num * (b.den : Int) + b.num * (a.den : Int)) (a.den * b.den)

/-- Kernel-evaluable difference of rationals; `ratSub_eq` states it equals
`a - b`. -/
def ratSub (a b : Rat) : Rat := mkRat (a.num * (b.den : Int) - b.num * (a.den : Int)) (a.den * b.den)

lemma den_cast_ne (a : Rat) : ((a.den : Rat)) ≠ 0 := by
  exact_mod_cast a.den_nz

lemma ratMul_eq (a b : Rat) : ratMul a b = a * b := by
  unfold ratMul
  rw [Rat.mkRat_eq_div]
  push_cast
  rw [← div_mul_div_comm, Rat.num_div_den, Rat.num_div_den]

lemma ratDiv_eq (a b : Rat) : ratDiv a b = a / b := by
  unfold ratDiv
  by_cases hb0 : b.num = 0
  · have hb : b = 0 := by rwa [Rat.num_eq_zero] at hb0
    simp [hb0, hb]
  · rw [Rat.divInt_eq_div]
    push_cast
    have h3 : ((b.num : Rat)) ≠ 0 := by exact_mod_cast hb0
    conv_rhs => rw [← Rat.num_div_den a, ← Rat.num_div_den b]
    field_simp

lemma ratAdd_eq (a b : Rat) : ratAdd a b = a + b := by
  unfold ratAdd
  rw [Rat.mkRat_eq_div]
  push_cast
  conv_rhs => rw [← Rat.num_div_den a, ← Rat.num_div_den b]
  rw [div_add_div _ _ (den_cast_ne a) (den_cast_ne b)]
  ring_nf

lemma ratSub_eq (a b : Rat) : ratSub a b = a - b := by
  unfold ratSub
  rw [Rat.mkRat_eq_div]
  push_cast
  conv_rhs => rw [← Rat.num_div_den a, ← Rat.num_div_den b]
  rw [div_sub_div _ _ (den_cast_ne a) (den_cast_ne b)]
  ring_nf

/-- A Python cell value as it appears in a measurement record dict. -/
inductive Value where
  | s (v : String)
  | i (v : Int)
  | q (v : Rat)
  | nan
deriving DecidableEq

/-- A measurement record: a Python dict with string keys in insertion
order (dicts preserve insertion order, and all records here are built by
`zip`-ping a column list with a value list). -/
abbrev Row := List (String × Value)

/-- Numeric view of a `Value`, used where Python reads
`record["agnor_pixel_count"]` (always an int there) into an arithmetic
expression. -/
def Value.toQ : Value → Rat
  | .s _ => 0
  | .i n => (n : Rat)
  | .q v => v
  | .nan => 0

/-- Dictionary lookup `record[key]` (first match, as keys are unique). -/
def getVal : Row → String → Option Value
  | [], _ => none
  | (k, v) :: r, key => if k = key then some v else getVal r key

/-- `list(record.values())` of a record. -/
def rowValues (r : Row) : List Value := r.map (fun kv => kv.2)

/-- Assignment `record[key] = v` for a key already present (all uses in
the source assign to a column that exists in the record schema). -/
def setField (r : Row) (key : String) (v : Value) : Row :=
  r.map (fun kv => if kv.1 = key then (key, v) else kv)

/-- `NUCLEUS_COLUMNS` from the source. -/
def NUCLEUS_COLUMNS : List String :=
  ["patient_record", "patient_name", "source_image", "flag", "group",
   "exam_date", "exam_instance", "anatomical_site", "nucleus",
   "nucleus_pixel_count", "type"]

/-- `AGNOR_COLUMNS` from the source. -/
def AGNOR_COLUMNS : List String :=
  ["patient_record", "patient_name", "source_image", "flag", "group",
   "exam_date", "exam_instance", "anatomical_site", "nucleus", "agnor",
   "agnor_pixel_count", "type", "nucleus_ratio", "greatest_agnor_ratio",
   "smallest_agnor_ratio"]

/-- `MAX_NUCLEUS_PIXEL_COUNT = 67000`. -/
def MAX_NUCLEUS_PIXEL_COUNT : Nat := 67000

/-- `MIN_NUCLEUS_PERCENT_PIXEL_COUNT = 0.02`. -/
def MIN_NUCLEUS_PERCENT_PIXEL_COUNT : Rat := mkRat 2 100

/-- `MAX_NOR_PIXEL_COUNT = 3521`. -/
def MAX_NOR_PIXEL_COUNT : Nat := 3521

/-- `MIN_NOR_PERCENT_PIXEL_COUNT = 0.0017`. -/
def MIN_NOR_PERCENT_PIXEL_COUNT : Rat := mkRat 17 10000

/-- `MAX_CONTOUR_PERCENT_DIFF = 5.0`. -/
def MAX_CONTOUR_PERCENT_DIFF : Rat := 5

/-- Python `int(x)` on a float: truncation toward zero. -/
def pyInt (x : Rat) : Int := if 0 ≤ x then x.floor else x.ceil

/-- Python `round` to an integer: round-half-to-even. -/
def pyRoundHalfEven (x : Rat) : Int :=
  let fl := x.floor
  let fr := ratSub x (fl : Rat)
  if fr < mkRat 1 2 then fl
  else if mkRat 1 2 < fr then fl + 1
  else if fl % 2 = 0 then fl else fl + 1

/-- Python `round(x, 2)`. -/
def pyRound2 (x : Rat) : Rat := ratDiv (pyRoundHalfEven (ratMul x 100) : Rat) 100

/-- `np.min` over a list produced by appending (0 on empty, matching no
use in the source: the source only calls it on a non-empty list). -/
def npMin : List Nat → Nat
  | [] => 0
  | h :: t => t.foldl Nat.min h

/-- `np.max` over a list (0 on empty; only called on non-empty lists). -/
def npMax : List Nat → Nat
  | [] => 0
  | h :: t => t.foldl Nat.max h

/-- Fuel-driven helper for `pdUnique` (structural recursion so that it
evaluates inside the kernel; the fuel is always at least the list
length). -/
def pdUniqueFuel {α : Type} [DecidableEq α] : Nat → List α → List α
  | _, [] => []
  | 0, _ :: _ => []
  | n + 1, x :: xs => x :: pdUniqueFuel n (xs.filter (fun y => y ≠ x))

/-- `pandas.unique` / `Series.unique()`: distinct values in order of
first appearance. -/
def pdUnique {α : Type} [DecidableEq α] (l : List α) : List α :=
  pdUniqueFuel l.length l

lemma pdUniqueFuel_congr {α : Type} [DecidableEq α] :
    ∀ (n m : Nat) (l : List α), l.length ≤ n → l.length ≤ m →
      pdUniqueFuel n l = pdUniqueFuel m l := by
  intro n
  induction n with
  | zero =>
    intro m l h1 _
    cases l with
    | nil => cases m <;> rfl
    | cons x xs => simp at h1
  | succ n ih =>
    intro m l h1 h2
    cases l with
    | nil => cases m <;> rfl
    | cons x xs =>
      cases m with
      | zero => simp at h2
      | succ m =>
        show x :: pdUniqueFuel n _ = x :: pdUniqueFuel m _
        congr 1
        exact ih m _ (Nat.le_trans (List.length_filter_le _ _) (Nat.le_of_succ_le_succ h1))
          (Nat.le_trans (List.length_filter_le _ _) (Nat.le_of_succ_le_succ h2))

/-- The unfolding equation of `pdUnique` on a cons cell. -/
lemma pdUnique_cons {α : Type} [DecidableEq α] (x : α) (xs : List α) :
    pdUnique (x :: xs) = x :: pdUnique (xs.filter (fun y => y ≠ x)) := by
  show x :: pdUniqueFuel xs.length _ = x :: pdUniqueFuel (xs.filter _).length _
  congr 1
  exact pdUniqueFuel_congr _ _ _ (List.length_filter_le _ _) (Nat.le_refl _)

/-- Induction along the recursion structure of `pdUnique`. -/
lemma pdUnique_induction {α : Type} [DecidableEq α] (motive : List α → Prop)
    (base : motive [])
    (step : ∀ x xs, motive (xs.filter (fun y => y ≠ x)) → motive (x :: xs)) :
    ∀ l : List α, motive l := by
  have aux : ∀ (n : Nat) (l : List α), l.length ≤ n → motive l := by
    intro n
    induction n with
    | zero =>
      intro l h
      cases l with
      | nil => exact base
      | cons x xs => simp at h
    | succ n ih =>
      intro l h
      cases l with
      | nil => exact base
      | cons x xs =>
        exact step x xs
          (ih _ (Nat.le_trans (List.length_filter_le _ _) (Nat.le_of_succ_le_succ h)))
  exact fun l => aux l.length l (Nat.le_refl _)

/-- The keep condition of `discard_contours_by_size`:
`min_pixel_count <= contour_pixel_count and contour_pixel_count <= max_pixel_count`
with `min_pixel_count = int((min_relative_pixel_count * max_pixel_count) / 100)`.
`pc` models `get_contour_pixel_count(contour, shape)` for the call's
fixed `shape`. -/
def keepBySize (pc : Contour → Nat) (max_pixel_count : Nat)
    (min_relative_pixel_count : Rat) (c : Contour) : Bool :=
  decide (pyInt (ratDiv (ratMul min_relative_pixel_count (max_pixel_count : Rat)) 100) ≤ (pc c : Int)
    ∧ pc c ≤ max_pixel_count)

/-- `discard_contours_by_size` (source lines 179-204). -/
def discard_contours_by_size (pc : Contour → Nat) (max_pixel_count : Nat)
    (min_relative_pixel_count : Rat) : List Contour → List Contour × List Contour
  | [] => ([], [])
  | c :: rest =>
    let kd := discard_contours_by_size pc max_pixel_count min_relative_pixel_count rest
    if keepBySize pc max_pixel_count min_relative_pixel_count c
    then (c :: kd.1, kd.2) else (kd.1, c :: kd.2)

/-- `discard_contours_without_contours` (source lines 207-231): partitions
the parent set by whether some point of some child lies inside the parent
(`cv2.pointPolygonTest(parent, pt, False) >= 0` is modelled by `inside`). -/
def discard_contours_without_contours (inside : Contour → Pt → Bool)
    (parent_contours child_contours : List Contour) : List Contour × List Contour :=
  match parent_contours with
  | [] => ([], [])
  | parent :: rest =>
    let kd := discard_contours_without_contours inside rest child_contours
    if child_contours.any (fun child => child.any (fun pt => inside parent pt))
    then (parent :: kd.1, kd.2) else (kd.1, parent :: kd.2)

/-- `discard_contours_outside_contours` (source lines 234-263): partitions
the child set by whether some point of the child lies inside some parent. -/
def discard_contours_outside_contours (inside : Contour → Pt → Bool)
    (parent_contours child_contours : List Contour) : List Contour × List Contour :=
  match child_contours with
  | [] => ([], [])
  | child :: rest =>
    let kd := discard_contours_outside_contours inside parent_contours rest
    if parent_contours.any (fun parent => child.any (fun pt => inside parent pt))
    then (child :: kd.1, kd.2) else (kd.1, child :: kd.2)

/-- The convex-hull defect percentage of `discard_overlapping_deformed_contours`:
`((hull - c) / ((hull + c) / 2)) * 100` over Python floats. -/
def defectDiff (pc : Contour → Nat) (hull : Contour → Contour) (c : Contour) : Rat :=
  ratMul (ratDiv (ratSub (pc (hull c) : Rat) (pc c : Rat))
    (ratDiv (ratAdd (pc (hull c) : Rat) (pc c : Rat)) 2)) 100

/-- `discard_overlapping_deformed_contours` (source lines 266-295).  When
both pixel counts are zero Python raises `ZeroDivisionError`. -/
def discard_overlapping_deformed_contours (pc : Contour → Nat)
    (hull : Contour → Contour) (max_diff : Rat) :
    List Contour → Except String (List Contour × List Contour)
  | [] => .ok ([], [])
  | c :: rest =>
    if pc (hull c) + pc c = 0 then .error "ZeroDivisionError: float division by zero"
    else
      match discard_overlapping_deformed_contours pc hull max_diff rest with
      | .error e => .error e
      | .ok kd =>
        if defectDiff pc hull c ≤ max_diff
        then .ok (c :: kd.1, kd.2) else .ok (kd.1, c :: kd.2)

/-- `smooth_contours` (source lines 78-113): per-contour spline fitting is
modelled by the fallible `fit` parameter (the whole `try` body for one
contour); a contour whose fitting raises is dropped, the rest continue. -/
def smooth_contours (fit : Contour → Except String Contour) : List Contour → List Contour
  | [] => []
  | c :: rest =>
    match fit c with
    | .ok s => s :: smooth_contours fit rest
    | .error _ => smooth_contours fit rest

/-- The string context arguments of `get_contour_measurements`. -/
structure Ctx where
  record_id : String
  patient_name : String
  mask_name : String
  contours_flag : String
  record_class : String
  exam_date : String
  exam_instance : String
  anatomical_site : String
  parent_type : String
  child_type : String

/-- One nucleus record: `zip(NUCLEUS_COLUMNS, parent_features)` with
`parent_features = [record_id, patient_name, mask_name, contours_flag,
record_class, exam_date, exam_instance, anatomical_site, parent_id,
parent_pixel_count, parent_type]`. -/
def mkParentRow (ctx : Ctx) (parentId : Int) (parentPixelCount : Nat) : Row :=
  NUCLEUS_COLUMNS.zip
    [.s ctx.record_id, .s ctx.patient_name, .s ctx.mask_name, .s ctx.contours_flag,
     .s ctx.record_class, .s ctx.exam_date, .s ctx.exam_instance, .s ctx.anatomical_site,
     .i parentId, .i (parentPixelCount : Int), .s ctx.parent_type]

/-- One AgNOR record before the global-ratio pass:
`zip(AGNOR_COLUMNS, child_features)` where `child_features` has 13 entries,
so the dict gets only the first 13 of the 15 `AGNOR_COLUMNS` keys. -/
def mkChildRow (ctx : Ctx) (parentId childId : Int) (childPixelCount : Nat)
    (parentPixelCountRq : Rat) : Row :=
  AGNOR_COLUMNS.zip
    [.s ctx.record_id, .s ctx.patient_name, .s ctx.mask_name, .s ctx.contours_flag,
     .s ctx.record_class, .s ctx.exam_date, .s ctx.exam_instance, .s ctx.anatomical_site,
     .i parentId, .i childId, .i (childPixelCount : Int), .s ctx.child_type,
     .q parentPixelCountRq]

/-- The inner loop of `get_contour_measurements` for one parent (source
lines 453-463): scan `child_contours` in order, attribute a child to this
parent on the first of its points inside it, assign `child_id`
sequentially per parent, append the pixel count to `contours_size`.
Raises `ZeroDivisionError` if the parent pixel count is zero. -/
def attribChildren (pc : Contour → Nat) (inside : Contour → Pt → Bool) (ctx : Ctx)
    (parentId : Int) (parent : Contour) :
    List Contour → Int → Except String (List Row × List Nat)
  | [], _ => .ok ([], [])
  | child :: rest, childId =>
    if child.any (fun pt => inside parent pt) then
      if pc parent = 0 then .error "ZeroDivisionError: division by zero"
      else
        match attribChildren pc inside ctx parentId parent rest (childId + 1) with
        | .error e => .error e
        | .ok rs =>
          .ok (mkChildRow ctx parentId childId (pc child)
                (ratDiv (pc child : Rat) (pc parent : Rat)) :: rs.1,
               pc child :: rs.2)
    else attribChildren pc inside ctx parentId parent rest childId

/-- The parent loop of `get_contour_measurements` (source lines 446-463).
The third component models the Python local `contours_size`: it is
`none` while unbound (no parent iteration has run) and otherwise holds
the value left by the **last** iteration, because the source re-binds
`contours_size = []` inside the loop body. -/
def measureLoop (pc : Contour → Nat) (inside : Contour → Pt → Bool) (ctx : Ctx)
    (children : List Contour) :
    List Contour → Int → Except String (List Row × List Row × Option (List Nat))
  | [], _ => .ok ([], [], none)
  | parent :: rest, parentId =>
    match attribChildren pc inside ctx parentId parent children 0 with
    | .error e => .error e
    | .ok rs =>
      match measureLoop pc inside ctx children rest (parentId + 1) with
      | .error e => .error e
      | .ok rest' =>
        .ok (mkParentRow ctx parentId (pc parent) :: rest'.1,
             rs.1 ++ rest'.2.1,
             some (rest'.2.2.getD rs.2))

/-- The per-record body of the ratio pass (source lines 470-473):
`features = list(record.values())`, append
`record["agnor_pixel_count"] / max_contour_size` and
`record["agnor_pixel_count"] / min_contour_size`, re-zip with
`AGNOR_COLUMNS`. -/
def applyGlobalRatios (mn mx : Nat) (r : Row) : Row :=
  let a : Rat := ((getVal r "agnor_pixel_count").getD .nan).toQ
  AGNOR_COLUMNS.zip (rowValues r ++ [.q (ratDiv a (mx : Rat)), .q (ratDiv a (mn : Rat))])

/-- `get_contour_measurements` (source lines 407-475).  After the parent
loop, `if len(contours_size) > 0` raises `UnboundLocalError` when the
loop never ran (empty parent list); otherwise, when the last parent had
attributed children, every child record is re-written with the two extra
ratios computed from that last `contours_size`. -/
def get_contour_measurements (pc : Contour → Nat) (inside : Contour → Pt → Bool)
    (ctx : Ctx) (start_index : Int) (parent_contours child_contours : List Contour) :
    Except String (List Row × List Row) :=
  match measureLoop pc inside ctx child_contours parent_contours start_index with
  | .error e => .error e
  | .ok res =>
    match res.2.2 with
    | none => .error "UnboundLocalError: local variable contours_size referenced before assignment"
    | some cs =>
      if cs.length > 0 then
        .ok (res.1, res.2.1.map (applyGlobalRatios (npMin cs) (npMax cs)))
      else .ok (res.1, res.2.1)

/-- The pixel counts `contours_size` collects for one parent: one entry
per child contour having a point inside the parent, in child order. -/
def childSizes (pc : Contour → Nat) (inside : Contour → Pt → Bool)
    (parent : Contour) (children : List Contour) : List Nat :=
  children.filterMap (fun child =>
    if child.any (fun pt => inside parent pt) then some (pc child) else none)

/-- `write_contour_measurements` (source lines 478-509), restricted to its
dataframe transformation (the CSV append and the added `datetime` column
do not change the row fields the claims are about):
`df_child["nucleus"] = df_parent["nucleus"].unique()[0]` overwrites the
`nucleus` column of every child row; on an empty parent table `[0]`
raises `IndexError`. -/
def write_contour_measurements (parent_measurements child_measurements : List Row) :
    Except String (List Row × List Row) :=
  match (pdUnique (parent_measurements.map (fun r => getVal r "nucleus"))).head? with
  | none => .error "IndexError: index 0 is out of bounds for axis 0 with size 0"
  | some v =>
    .ok (parent_measurements,
         child_measurements.map (fun r => setField r "nucleus" (v.getD .nan)))

/-- `features_list` from `classify_agnor`. -/
def classifyFeatureNames : List String :=
  ["agnor_pixel_count", "nucleus_ratio", "smallest_agnor_ratio", "greatest_agnor_ratio"]

/-- The feature matrix `df[features_list]` of `classify_agnor`: one row of
four numbers per record. -/
def classifyFeatures (contours : List Row) : List (List Rat) :=
  contours.map (fun r => classifyFeatureNames.map (fun k => ((getVal r k).getD .nan).toQ))

/-- `classify_agnor` (source lines 648-674).  The external artifact's
`classifier.predict` is the opaque `predict` parameter; its raw output is
assigned to the `type` column positionally (`df["type"] = predictions`)
and the records are returned with all other columns unchanged. -/
def classify_agnor (predict : List (List Rat) → List Value)
    (contours : List Row) : List Row :=
  if contours.length = 0 then contours
  else
    let predictions := predict (classifyFeatures contours)
    (contours.zip predictions).map (fun rp => setField rp.1 "type" rp.2)

/-- One row of the nucleus measurements CSV, as read back by
`aggregate_measurements` (only the row count feeds the claims). -/
structure NucleusCsvRow where
  nucleus_pixel_count : Nat
deriving DecidableEq

/-- One row of the AgNOR measurements CSV, reduced to the grouping key
columns `aggregate_measurements` uses for the NNA distribution. -/
structure AgnorCsvRow where
  source_image : String
  nucleus : Int
deriving DecidableEq

/-- `df_agnor.groupby(["source_image", "nucleus"])["agnor"].count()`:
the per-group row counts, one per distinct key (groupby sorts keys, but
every use below is invariant under the order of this list, so keys are
taken in first-appearance order). -/
def groupAgnorCounts (rows : List AgnorCsvRow) : List Nat :=
  (pdUnique (rows.map (fun r => (r.source_image, r.nucleus)))).map
    (fun k => rows.countP (fun r => (r.source_image, r.nucleus) = k))

/-- `n_nuclei_with_n_agnors.groupby(["agnor"]).size()` (source lines
555-556): for each distinct per-nucleus AgNOR count, how many nuclei have
it. -/
def nNucleiWithNAgnors (rows : List AgnorCsvRow) : List (Nat × Nat) :=
  (pdUnique (groupAgnorCounts rows)).map
    (fun v => (v, (groupAgnorCounts rows).countP (fun x => x = v)))

/-- The `nna1` .. `nna4` pattern (source lines 558-573): the table entry
for an exact AgNOR count, 0 when that count is absent. -/
def nnaExact (table : List (Nat × Nat)) (k : Nat) : Nat :=
  match table.filter (fun e => e.1 = k) with
  | [] => 0
  | e :: _ => e.2

/-- `nna5_plus` (source lines 574-577): the sum of the table entries with
AgNOR count at least 5 (the sum of an empty selection is 0, matching the
`else` branch). -/
def nnaFivePlus (table : List (Nat × Nat)) : Nat :=
  ((table.filter (fun e => 5 ≤ e.1)).map (fun e => e.2)).sum

/-- The NNA block of `aggregate_measurements` (source lines 541, 555-590):
the five bucket counts and, when there are nuclei, the five percentages
`round(nna / number_of_nucleus, 2)` (all 0 otherwise). -/
def aggregateNNA (nucleusRows : List NucleusCsvRow) (agnorRows : List AgnorCsvRow) :
    (Nat × Nat × Nat × Nat × Nat) × (Rat × Rat × Rat × Rat × Rat) :=
  let number_of_nucleus := nucleusRows.length
  let table := nNucleiWithNAgnors agnorRows
  let nna1 := nnaExact table 1
  let nna2 := nnaExact table 2
  let nna3 := nnaExact table 3
  let nna4 := nnaExact table 4
  let nna5_plus := nnaFivePlus table
  let percents :=
    if 0 < number_of_nucleus then
      (pyRound2 (ratDiv (nna1 : Rat) (number_of_nucleus : Rat)),
       pyRound2 (ratDiv (nna2 : Rat) (number_of_nucleus : Rat)),
       pyRound2 (ratDiv (nna3 : Rat) (number_of_nucleus : Rat)),
       pyRound2 (ratDiv (nna4 : Rat) (number_of_nucleus : Rat)),
       pyRound2 (ratDiv (nna5_plus : Rat) (number_of_nucleus : Rat)))
    else (0, 0, 0, 0, 0)
  ((nna1, nna2, nna3, nna4, nna5_plus), percents)

/-- The OpenCV-level operations `analyze_contours` composes, abstracted
over the image type: pixel counting, point-in-polygon tests, convex
hulls, spline fitting, contour extraction from the two channel sums, and
the drawing/reconstruction steps (which only matter here through which
image value ends up in the diagnostic slot). -/
structure CvEnv (Img : Type) where
  pixelCount : Contour → Nat
  inside : Contour → Pt → Bool
  convexHull : Contour → Contour
  smoothFit : Contour → Except String Contour
  getContoursNuclei : Img → List Contour
  getContoursNors : Img → List Contour
  colorClasses : Img → Img
  drawSingle : Img → List Contour → Img
  drawMultiple : Img → List Contour → Img
  reconstructMask : Img → List Contour → List Contour → Img

/-- The two tuples `analyze_contours` returns. -/
structure AnalyzeResult (Img : Type) where
  updatedMask : Img
  nucleiAdequate : List Contour
  norsAdequate : List Contour
  contourDetail : Option Img
  overlappingNuclei : List Contour
  overlappingNors : List Contour

/-- Lines 353-354: nucleus contours extracted and size-filtered with the
nucleus thresholds. -/
def nucleiSizeKD {Img : Type} (env : CvEnv Img) (mask : Img) :
    List Contour × List Contour :=
  discard_contours_by_size env.pixelCount MAX_NUCLEUS_PIXEL_COUNT
    MIN_NUCLEUS_PERCENT_PIXEL_COUNT (env.getContoursNuclei mask)

/-- Lines 356-358: AgNOR contours extracted and size-filtered with the
NOR thresholds. -/
def norsSizeKD {Img : Type} (env : CvEnv Img) (mask : Img) :
    List Contour × List Contour :=
  discard_contours_by_size env.pixelCount MAX_NOR_PIXEL_COUNT
    MIN_NOR_PERCENT_PIXEL_COUNT (env.getContoursNors mask)

/-- Lines 360-361: optional smoothing of the kept nucleus contours. -/
def nucleiSmoothed {Img : Type} (env : CvEnv Img) (mask : Img) (smooth : Bool) :
    List Contour :=
  if smooth then smooth_contours env.smoothFit (nucleiSizeKD env mask).1
  else (nucleiSizeKD env mask).1

/-- Line 364: split of the nuclei into with/without AgNOR. -/
def nucleiWithKD {Img : Type} (env : CvEnv Img) (mask : Img) (smooth : Bool) :
    List Contour × List Contour :=
  discard_contours_without_contours env.inside (nucleiSmoothed env mask smooth)
    (norsSizeKD env mask).1

/-- `analyze_contours` (source lines 340-404). -/
def analyze_contours {Img : Type} (env : CvEnv Img) (mask : Img) (smooth : Bool) :
    Except String (AnalyzeResult Img) :=
  match discard_overlapping_deformed_contours env.pixelCount env.convexHull
      MAX_CONTOUR_PERCENT_DIFF (nucleiWithKD env mask smooth).1 with
  | .error e => .error e
  | .ok ad =>
    let norsAdeq := (discard_contours_outside_contours env.inside ad.1 (norsSizeKD env mask).1).1
    let norsOver := (discard_contours_outside_contours env.inside ad.2 (norsSizeKD env mask).1).1
    let updated := env.reconstructMask mask ad.1 norsAdeq
    let d0 := env.colorClasses mask
    let d1 := if (nucleiSizeKD env mask).2.length > 0
              then env.drawSingle d0 (nucleiSizeKD env mask).2 else d0
    let d2 := if (nucleiWithKD env mask smooth).2.length > 0
              then env.drawSingle d1 (nucleiWithKD env mask smooth).2 else d1
    let d3 := if (norsSizeKD env mask).2.length > 0
              then env.drawSingle d2 (norsSizeKD env mask).2 else d2
    if ad.2.length > 0 then
      .ok ⟨updated, ad.1, norsAdeq, some (env.drawMultiple d3 ad.2), ad.2, norsOver⟩
    else
      .ok ⟨updated, ad.1, norsAdeq,
           (if (nucleiSizeKD env mask).2.length = 0 ∧ (nucleiWithKD env mask smooth).2.length = 0
            then none else some d3),
           [], []⟩

lemma discard_by_size_eq_filter (pc : Contour → Nat) (mx : Nat) (mr : Rat) :
    ∀ cs : List Contour,
      discard_contours_by_size pc mx mr cs =
        (cs.filter (keepBySize pc mx mr), cs.filter (fun c => ! keepBySize pc mx mr c))
  | [] => rfl
  | c :: rest => by
    simp only [discard_contours_by_size, discard_by_size_eq_filter pc mx mr rest,
      List.filter_cons]
    cases h : keepBySize pc mx mr c <;> simp [h]

lemma discard_without_eq_filter (inside : Contour → Pt → Bool) (children : List Contour) :
    ∀ parents : List Contour,
      discard_contours_without_contours inside parents children =
        (parents.filter (fun parent => children.any (fun child => child.any (fun pt => inside parent pt))),
         parents.filter (fun parent => ! children.any (fun child => child.any (fun pt => inside parent pt))))
  | [] => rfl
  | parent :: rest => by
    simp only [discard_contours_without_contours, discard_without_eq_filter inside children rest,
      List.filter_cons]
    cases h : children.any (fun child => child.any (fun pt => inside parent pt)) <;> simp [h]

lemma discard_outside_eq_filter (inside : Contour → Pt → Bool) (parents : List Contour) :
    ∀ children : List Contour,
      discard_contours_outside_contours inside parents children =
        (children.filter (fun child => parents.any (fun parent => child.any (fun pt => inside parent pt))),
         children.filter (fun child => ! parents.any (fun parent => child.any (fun pt => inside parent pt))))
  | [] => rfl
  | child :: rest => by
    simp only [discard_contours_outside_contours, discard_outside_eq_filter inside parents rest,
      List.filter_cons]
    cases h : parents.any (fun parent => child.any (fun pt => inside parent pt)) <;> simp [h]

lemma discard_overlapping_ok_eq_filter (pc : Contour → Nat) (hull : Contour → Contour)
    (md : Rat) :
    ∀ (cs : List Contour) (kd : List Contour × List Contour),
      discard_overlapping_deformed_contours pc hull md cs = .ok kd →
      kd = (cs.filter (fun c => decide (defectDiff pc hull c ≤ md)),
            cs.filter (fun c => ! decide (defectDiff pc hull c ≤ md)))
  | [], kd => by
    intro h
    simp only [discard_overlapping_deformed_contours] at h
    cases h
    rfl
  | c :: rest, kd => by
    intro h
    simp only [discard_overlapping_deformed_contours] at h
    split at h
    · cases h
    · cases hrec : discard_overlapping_deformed_contours pc hull md rest with
      | error e => rw [hrec] at h; cases h
      | ok kd' =>
        rw [hrec] at h
        have ih := discard_overlapping_ok_eq_filter pc hull md rest kd' hrec
        by_cases hd : defectDiff pc hull c ≤ md
        · simp only [hd, if_pos] at h
          cases h
          simp [List.filter_cons, hd, ih]
        · simp only [hd, if_neg, if_false] at h
          cases h
          simp [List.filter_cons, hd, ih]

/-- The partition property of a (kept, discarded) pair against its input
list: both outputs are order-preserving sublists of the input, together
they account for every input occurrence, and they are disjoint. -/
def partitionProps (kd : List Contour × List Contour) (input : List Contour) : Prop :=
  kd.1.Sublist input ∧ kd.2.Sublist input ∧
  (∀ c : Contour, input.count c = kd.1.count c + kd.2.count c) ∧
  (∀ c : Contour, c ∈ kd.1 → c ∉ kd.2)

lemma partitionProps_of_filter (p : Contour → Bool) (l : List Contour) :
    partitionProps (l.filter p, l.filter (fun c => ! p c)) l := by
  refine ⟨List.filter_sublist _, List.filter_sublist _, fun c => ?_, fun c hk hd => ?_⟩
  · cases h : p c
    · have h1 : List.count c (l.filter p) = 0 :=
        List.count_eq_zero.mpr (fun hm => by simp [List.mem_filter, h] at hm)
      have h2 : List.count c (l.filter (fun c => ! p c)) = List.count c l :=
        List.count_filter (by simp [h])
      rw [h1, h2, Nat.zero_add]
    · have h1 : List.count c (l.filter p) = List.count c l := List.count_filter h
      have h2 : List.count c (l.filter (fun c => ! p c)) = 0 :=
        List.count_eq_zero.mpr (fun hm => by simp [List.mem_filter, h] at hm)
      rw [h1, h2, Nat.add_zero]
  · rw [List.mem_filter] at hk hd
    rw [hk.2] at hd
    exact absurd hd.2 (by simp)

/-- C8: every filter stage — the size filter, the containment analyzer in
both directions, and the deformation filter (on every input where it does
not raise, i.e. returns `.ok`) — partitions its input: kept and discarded
are order-preserving sublists of the input, every input occurrence lands
in exactly one of them, and they are disjoint. -/
theorem c8_filter_stages_partition (pc : Contour → Nat) (inside : Contour → Pt → Bool)
    (hull : Contour → Contour) (mx : Nat) (mr md : Rat)
    (parents children cs : List Contour) :
    partitionProps (discard_contours_by_size pc mx mr cs) cs
  ∧ partitionProps (discard_contours_without_contours inside parents children) parents
  ∧ partitionProps (discard_contours_outside_contours inside parents children) children
  ∧ ∀ kd : List Contour × List Contour,
      discard_overlapping_deformed_contours pc hull md cs = .ok kd →
      partitionProps kd cs := by
  refine ⟨?_, ?_, ?_, fun kd h => ?_⟩
  · rw [discard_by_size_eq_filter]; exact partitionProps_of_filter _ _
  · rw [discard_without_eq_filter]; exact partitionProps_of_filter _ _
  · rw [discard_outside_eq_filter]; exact partitionProps_of_filter _ _
  · rw [discard_overlapping_ok_eq_filter pc hull md cs kd h]
    exact partitionProps_of_filter _ _

/-- A one-point contour used by concrete witnesses. -/
def cW : Contour := [((0 : Int), (0 : Int))]

/-- Constant pixel-count oracle used by concrete witnesses. -/
def pcW : Contour → Nat := fun _ => 1

/-- Identity convex-hull oracle used by concrete witnesses. -/
def hullW : Contour → Contour := fun c => c

/-- All-inside containment oracle used by concrete witnesses. -/
def insideW : Contour → Pt → Bool := fun _ _ => true

theorem c8_filter_stages_partition_witness :
    discard_overlapping_deformed_contours pcW hullW 5 [cW] = .ok ([cW], [])
  ∧ partitionProps ([cW], []) [cW] :=
  ⟨rfl, (c8_filter_stages_partition pcW insideW hullW 1 0 5 [] [] [cW]).2.2.2 ([cW], []) rfl⟩

/-- A contour whose pixel-count oracle reads 13 from its first coordinate. -/
def c13 : Contour := [((13 : Int), (0 : Int))]

/-- Pixel-count oracle reading the first coordinate of the contour. -/
def pc13 : Contour → Nat := fun c => (c.headD ((0 : Int), (0 : Int))).1.toNat

/-- C9, counterexample: with `max_pixel_count = 67000` and
`min_relative_pixel_count = 0.02` the claim's un-truncated bound is
`0.02 * 67000 / 100 = 13.4`, so the claim says a contour of pixel count 13
is discarded (`13 < 13.4`); the code computes
`min_pixel_count = int(13.4) = 13` and keeps it. -/
theorem c9_counterexample :
    discard_contours_by_size pc13 67000 (mkRat 2 100) [c13] = ([c13], [])
  ∧ pc13 c13 = 13
  ∧ ¬ (ratDiv (ratMul (mkRat 2 100) ((67000 : Nat) : Rat)) 100 ≤ (13 : Rat)) := by
  decide

/-- C9, amended: `discard_contours_by_size` keeps a contour iff
`minAbsolute ≤ pixelCount ≤ maxPixelCount` with both ends inclusive,
where `minAbsolute = int(minRelativePercent * maxPixelCount / 100)`
(the product truncated toward zero, as the code's `int(...)` does); kept
and discarded are the corresponding filters of the input. -/
theorem c9_size_filter_rule (pc : Contour → Nat) (mx : Nat) (mr : Rat)
    (cs : List Contour) :
    discard_contours_by_size pc mx mr cs =
      (cs.filter (keepBySize pc mx mr), cs.filter (fun c => ! keepBySize pc mx mr c))
  ∧ ∀ c : Contour, keepBySize pc mx mr c = true ↔
      (pyInt (mr * (mx : Rat) / 100) ≤ (pc c : Int) ∧ pc c ≤ mx) :=
  ⟨discard_by_size_eq_filter pc mx mr cs, fun c => by simp [keepBySize, ratDiv_eq, ratMul_eq]⟩

lemma smooth_contours_length_le (fit : Contour → Except String Contour) :
    ∀ l : List Contour, (smooth_contours fit l).length ≤ l.length
  | [] => Nat.le_refl 0
  | c :: rest => by
    simp only [smooth_contours]
    cases fit c with
    | ok s =>
      simpa using Nat.succ_le_succ (smooth_contours_length_le fit rest)
    | error e =>
      exact Nat.le_trans (smooth_contours_length_le fit rest) (Nat.le_succ _)

lemma smooth_contours_append (fit : Contour → Except String Contour) :
    ∀ l1 l2 : List Contour,
      smooth_contours fit (l1 ++ l2) = smooth_contours fit l1 ++ smooth_contours fit l2
  | [], l2 => rfl
  | c :: rest, l2 => by
    simp only [List.cons_append, smooth_contours]
    cases fit c with
    | ok s => simp [smooth_contours_append fit rest l2]
    | error e => exact smooth_contours_append fit rest l2

/-- C10: `smooth_contours` is non-fatal on per-contour fitting failure: a
contour whose fitting raises is dropped while all other contours (before
and after it) are still processed, so the output is strictly shorter than
the input there — callers cannot assume equal lengths. -/
theorem c10_smoothing_nonfatal (fit : Contour → Except String Contour)
    (pre post : List Contour) (c : Contour) (e : String) (hf : fit c = .error e) :
    smooth_contours fit (pre ++ c :: post) =
      smooth_contours fit pre ++ smooth_contours fit post
  ∧ (smooth_contours fit (pre ++ c :: post)).length < (pre ++ c :: post).length := by
  have h1 : smooth_contours fit (pre ++ c :: post) =
      smooth_contours fit pre ++ smooth_contours fit post := by
    rw [smooth_contours_append]
    congr 1
    simp [smooth_contours, hf]
  refine ⟨h1, ?_⟩
  rw [h1]
  have hp := smooth_contours_length_le fit pre
  have hq := smooth_contours_length_le fit post
  simp only [List.length_append, List.length_cons]
  omega

/-- Fitting oracle used by the C10 witness: fails exactly on the empty
contour. -/
def fitW : Contour → Except String Contour :=
  fun c => if c.length = 0 then .error "degenerate" else .ok c

theorem c10_smoothing_nonfatal_witness :
    fitW ([] : Contour) = .error "degenerate"
  ∧ (smooth_contours fitW ([cW] ++ ([] : Contour) :: [cW]) =
       smooth_contours fitW [cW] ++ smooth_contours fitW [cW]
     ∧ (smooth_contours fitW ([cW] ++ ([] : Contour) :: [cW])).length <
         ([cW] ++ ([] : Contour) :: [cW]).length) :=
  ⟨rfl, c10_smoothing_nonfatal fitW [cW] [cW] [] "degenerate" rfl⟩

/-- C4: calling `get_contour_measurements` with an empty parent list does
not return two empty record lists: the parent loop never runs, so the
local `contours_size` is unbound and `if len(contours_size) > 0` raises
`UnboundLocalError` for every choice of the remaining arguments. -/
theorem c4_empty_parents_raises (pc : Contour → Nat) (inside : Contour → Pt → Bool)
    (ctx : Ctx) (start_index : Int) (children : List Contour) :
    get_contour_measurements pc inside ctx start_index [] children =
      .error "UnboundLocalError: local variable contours_size referenced before assignment" :=
  rfl

lemma getVal_setField_self (k : String) (v : Value) :
    ∀ r : Row, getVal r k ≠ none → getVal (setField r k v) k = some v := by
  intro r
  induction r with
  | nil => intro h; exact absurd rfl h
  | cons kv rest ih =>
    intro h
    obtain ⟨k1, v1⟩ := kv
    simp only [setField, List.map_cons]
    by_cases hk : k1 = k
    · subst hk
      rw [if_pos rfl]
      simp [getVal]
    · rw [if_neg hk]
      simp only [getVal, if_neg hk] at h ⊢
      exact ih h

/-- C3: `write_contour_measurements` with a non-empty parent row list
overwrites the `nucleus` field of every child row with the `nucleus`
value of the first parent row (`df_parent["nucleus"].unique()[0]` is the
first parent's value) before anything is written, so all child rows of
one call carry the first parent's nucleus id. -/
theorem c3_child_nucleus_overwrite (parents children : List Row) (p0 : Row)
    (hp : parents.head? = some p0) :
    write_contour_measurements parents children =
      .ok (parents, children.map (fun r =>
        setField r "nucleus" ((getVal p0 "nucleus").getD .nan)))
  ∧ ∀ r ∈ children, getVal r "nucleus" ≠ none →
      getVal (setField r "nucleus" ((getVal p0 "nucleus").getD .nan)) "nucleus" =
        some ((getVal p0 "nucleus").getD .nan) := by
  cases parents with
  | nil => simp at hp
  | cons q rest =>
    have hq : q = p0 := by simpa using hp
    subst hq
    constructor
    · simp only [write_contour_measurements, List.map_cons, pdUnique_cons, List.head?_cons]
    · intro r _ hne
      exact getVal_setField_self "nucleus" _ r hne

/-- Parent row used by the C3 witness. -/
def rowP : Row := [("nucleus", Value.i 7)]

/-- Child row used by the C3 witness. -/
def rowC : Row := [("agnor", Value.i 0), ("nucleus", Value.i 99)]

theorem c3_child_nucleus_overwrite_witness :
    ([rowP] : List Row).head? = some rowP
  ∧ (write_contour_measurements [rowP] [rowC] =
       .ok ([rowP], [rowC].map (fun r =>
         setField r "nucleus" ((getVal rowP "nucleus").getD .nan)))
     ∧ ∀ r ∈ [rowC], getVal r "nucleus" ≠ none →
         getVal (setField r "nucleus" ((getVal rowP "nucleus").getD .nan)) "nucleus" =
           some ((getVal rowP "nucleus").getD .nan)) :=
  ⟨rfl, c3_child_nucleus_overwrite [rowP] [rowC] rowP rfl⟩

/-- C5: `analyze_contours` (when it returns) yields a diagnostic image
only when at least one of the four discard categories (size-discarded
nuclei, size-discarded AgNORs, nuclei without AgNOR, overlapping/deformed
nuclei) is non-empty; when there are no overlapping/deformed nuclei both
deformed-output lists are returned empty, and when additionally there are
no size discards and no nuclei-without-AgNOR the diagnostic image is
`none`. -/
theorem c5_diagnostic_gating {Img : Type} (env : CvEnv Img) (mask : Img) (smooth : Bool)
    (r : AnalyzeResult Img) (h : analyze_contours env mask smooth = .ok r) :
    (r.contourDetail ≠ none →
      (nucleiSizeKD env mask).2 ≠ [] ∨ (norsSizeKD env mask).2 ≠ [] ∨
      (nucleiWithKD env mask smooth).2 ≠ [] ∨ r.overlappingNuclei ≠ [])
  ∧ ∀ ad : List Contour × List Contour,
      discard_overlapping_deformed_contours env.pixelCount env.convexHull
        MAX_CONTOUR_PERCENT_DIFF (nucleiWithKD env mask smooth).1 = .ok ad →
      ((ad.2 = [] → r.overlappingNuclei = [] ∧ r.overlappingNors = [])
       ∧ (ad.2 = [] → (nucleiSizeKD env mask).2 = [] → (norsSizeKD env mask).2 = [] →
          (nucleiWithKD env mask smooth).2 = [] → r.contourDetail = none)) := by
  cases hov : discard_overlapping_deformed_contours env.pixelCount env.convexHull
      MAX_CONTOUR_PERCENT_DIFF (nucleiWithKD env mask smooth).1 with
  | error e =>
    rw [analyze_contours, hov] at h
    cases h
  | ok ad0 =>
    rw [analyze_contours, hov] at h
    dsimp only at h
    by_cases hl : ad0.2.length > 0
    · rw [if_pos hl] at h
      injection h with h2
      subst h2
      constructor
      · intro _
        refine Or.inr (Or.inr (Or.inr ?_))
        show ad0.2 ≠ []
        intro hnil
        rw [hnil] at hl
        exact absurd hl (by simp)
      · intro ad had
        injection had with had2
        subst had2
        constructor
        · intro hnil
          rw [hnil] at hl
          exact absurd hl (by simp)
        · intro hnil
          rw [hnil] at hl
          exact absurd hl (by simp)
    · rw [if_neg hl] at h
      injection h with h2
      subst h2
      constructor
      · intro hd
        by_cases hcond : (nucleiSizeKD env mask).2.length = 0 ∧
            (nucleiWithKD env mask smooth).2.length = 0
        · exact absurd (by simp [hcond]) hd
        · rcases Decidable.not_and_iff_or_not.mp hcond with hn | hn
          · exact Or.inl (fun hnil => hn (by rw [hnil]; rfl))
          · exact Or.inr (Or.inr (Or.inl (fun hnil => hn (by rw [hnil]; rfl))))
      · intro ad had
        injection had with had2
        subst had2
        refine ⟨fun _ => ⟨rfl, rfl⟩, fun _ hn1 _ hn3 => ?_⟩
        show (if _ ∧ _ then none else some _) = none
        rw [if_pos ⟨by rw [hn1]; rfl, by rw [hn3]; rfl⟩]

/-- Trivial CV oracle over `Nat`-valued images used by the C5 witness:
no contours are found in the mask. -/
def envW : CvEnv Nat where
  pixelCount := fun _ => 1
  inside := fun _ _ => false
  convexHull := fun c => c
  smoothFit := fun c => .ok c
  getContoursNuclei := fun _ => []
  getContoursNors := fun _ => []
  colorClasses := fun i => i
  drawSingle := fun i _ => i
  drawMultiple := fun i _ => i
  reconstructMask := fun i _ _ => i

theorem c5_diagnostic_gating_witness :
    analyze_contours envW (0 : Nat) false = .ok ⟨0, [], [], none, [], []⟩
  ∧ (⟨0, [], [], none, [], []⟩ : AnalyzeResult Nat).contourDetail = none :=
  ⟨rfl,
   ((c5_diagnostic_gating envW 0 false ⟨0, [], [], none, [], []⟩ rfl).2
      ([], []) rfl).2 rfl rfl rfl rfl⟩

lemma mem_pdUnique {α : Type} [DecidableEq α] (k : α) :
    ∀ l : List α, k ∈ pdUnique l ↔ k ∈ l := by
  intro l
  induction l using pdUnique_induction with
  | base => simp [pdUnique, pdUniqueFuel]
  | step x xs ih =>
    rw [pdUnique_cons]
    by_cases hk : k = x
    · subst hk
      simp
    · simp only [List.mem_cons, hk, false_or]
      rw [ih, List.mem_filter]
      simp [hk]

lemma pdUnique_filter_eq {α : Type} [DecidableEq α] (k : α) :
    ∀ l : List α,
      (pdUnique l).filter (fun y => y = k) = if k ∈ l then [k] else [] := by
  intro l
  induction l using pdUnique_induction with
  | base => simp [pdUnique, pdUniqueFuel]
  | step x xs ih =>
    rw [pdUnique_cons, List.filter_cons]
    by_cases hx : x = k
    · subst hx
      rw [if_pos (by simp)]
      have hnil : (pdUnique (xs.filter (fun y => y ≠ x))).filter (fun y => y = x) = [] := by
        rw [List.filter_eq_nil_iff]
        intro a ha
        have : a ∈ xs.filter (fun y => y ≠ x) := (mem_pdUnique a _).mp ha
        have := (List.mem_filter.mp this).2
        simpa using this
      rw [hnil, if_pos (List.mem_cons_self x xs)]
    · rw [if_neg (by simpa using hx), ih]
      by_cases hk : k ∈ xs
      · rw [if_pos (by rw [List.mem_filter]; exact ⟨hk, by simpa using fun h => hx h.symm⟩),
          if_pos (List.mem_cons_of_mem x hk)]
      · rw [if_neg (fun hmem => hk (List.mem_filter.mp hmem).1),
          if_neg (fun hmem => (by rcases List.mem_cons.mp hmem with h | h
                                  exacts [hx h.symm, hk h]))]

lemma countP_split {α : Type} (p q : α → Bool) (l : List α) :
    l.countP p = l.countP (fun a => p a && q a) + l.countP (fun a => p a && ! q a) := by
  induction l with
  | nil => rfl
  | cons a t ih =>
    simp only [List.countP_cons, ih]
    cases hp : p a <;> cases hq : q a <;> simp [hp, hq] <;> omega

lemma sum_pdUnique_counts (p : Nat → Bool) :
    ∀ vals : List Nat,
      (((pdUnique vals).filter p).map (fun v => vals.countP (fun y => y = v))).sum
        = vals.countP p := by
  intro vals
  induction vals using pdUnique_induction with
  | base => rfl
  | step x xs ih =>
    have hmemne : ∀ v ∈ (pdUnique (xs.filter (fun y => y ≠ x))).filter p, v ≠ x := by
      intro v hv
      have h1 := (List.mem_filter.mp hv).1
      have h2 := (mem_pdUnique v _).mp h1
      simpa using (List.mem_filter.mp h2).2
    have hcnt : ∀ v : Nat, v ≠ x →
        (x :: xs).countP (fun y => y = v) =
          (xs.filter (fun y => y ≠ x)).countP (fun y => y = v) := by
      intro v hvx
      rw [List.countP_cons, List.countP_filter, if_neg (by simpa using fun h => hvx h.symm),
        Nat.add_zero]
      exact List.countP_congr (fun y _ => by
        constructor
        · intro h
          have hy : y = v := of_decide_eq_true h
          subst hy
          simp [hvx]
        · intro h
          exact decide_eq_true (of_decide_eq_true ((Bool.and_eq_true _ _).mp h).1))
    rw [pdUnique_cons, List.filter_cons]
    by_cases hp : p x
    · rw [if_pos hp]
      simp only [List.map_cons, List.sum_cons]
      rw [List.map_congr_left (fun v hv => hcnt v (hmemne v hv)), ih]
      rw [List.countP_filter, List.countP_cons, List.countP_cons, if_pos (by simp),
        if_pos hp]
      have hsplit := countP_split p (fun y => y ≠ x) xs
      have heqx : xs.countP (fun a => p a && ! decide (a ≠ x)) =
          xs.countP (fun y => y = x) := by
        refine List.countP_congr (fun y _ => ?_)
        constructor
        · intro h
          have := ((Bool.and_eq_true _ _).mp h).2
          simp only [Bool.not_eq_true', decide_eq_false_iff_not, not_not] at this
          simpa using this
        · intro h
          have hy : y = x := of_decide_eq_true h
          subst hy
          simp [hp]
      have heqne : xs.countP (fun y => decide (y = x) && decide (y ≠ x)) = 0 := by
        rw [List.countP_eq_zero]
        intro a _
        by_cases hax : a = x <;> simp [hax]
      omega
    · rw [if_neg hp]
      rw [List.map_congr_left (fun v hv => hcnt v (hmemne v hv)), ih]
      rw [List.countP_filter, List.countP_cons, if_neg hp, Nat.add_zero]
      have hsplit := countP_split p (fun y => y ≠ x) xs
      have heqx : xs.countP (fun a => p a && ! decide (a ≠ x)) = 0 := by
        rw [List.countP_eq_zero]
        intro a _
        by_cases hax : a = x
        · subst hax
          simp [hp]
        · simp [hax]
      omega

lemma nnaExact_eq_countP (rows : List AgnorCsvRow) (k : Nat) :
    nnaExact (nNucleiWithNAgnors rows) k
      = (groupAgnorCounts rows).countP (fun y => y = k) := by
  unfold nnaExact nNucleiWithNAgnors
  rw [show ((pdUnique (groupAgnorCounts rows)).map
        (fun v => (v, (groupAgnorCounts rows).countP (fun y => y = v)))).filter
          (fun e => e.1 = k)
      = ((pdUnique (groupAgnorCounts rows)).filter (fun y => y = k)).map
          (fun v => (v, (groupAgnorCounts rows).countP (fun y => y = v)))
    from List.filter_map _ _]
  rw [pdUnique_filter_eq]
  by_cases hk : k ∈ groupAgnorCounts rows
  · rw [if_pos hk]
    rfl
  · rw [if_neg hk]
    show (0 : Nat) = (groupAgnorCounts rows).countP (fun y => y = k)
    symm
    rw [List.countP_eq_zero]
    intro a ha h
    exact hk ((of_decide_eq_true h) ▸ ha)

lemma nnaFivePlus_eq_countP (rows : List AgnorCsvRow) :
    nnaFivePlus (nNucleiWithNAgnors rows)
      = (groupAgnorCounts rows).countP (fun y => 5 ≤ y) := by
  unfold nnaFivePlus nNucleiWithNAgnors
  rw [show ((pdUnique (groupAgnorCounts rows)).map
        (fun v => (v, (groupAgnorCounts rows).countP (fun y => y = v)))).filter
          (fun e => 5 ≤ e.1)
      = ((pdUnique (groupAgnorCounts rows)).filter (fun y => 5 ≤ y)).map
          (fun v => (v, (groupAgnorCounts rows).countP (fun y => y = v)))
    from List.filter_map _ _]
  rw [List.map_map]
  exact sum_pdUnique_counts (fun y => 5 ≤ y) (groupAgnorCounts rows)

/-- C6: for any measurement tables where the nucleus table has 10 rows and
grouping the AgNOR table by (source_image, nucleus) yields per-nucleus
AgNOR counts that are a permutation of [1,1,2,2,2,3,4,5,6] (the tenth
nucleus absent), the NNA block of `aggregate_measurements` computes
NNA1=2, NNA2=3, NNA3=1, NNA4=1, NNA5+=2, and each percentage equals the
corresponding count divided by 10. -/
theorem c6_nna_aggregation (nRows : List NucleusCsvRow) (aRows : List AgnorCsvRow)
    (hN : nRows.length = 10)
    (hg : (groupAgnorCounts aRows).Perm [1, 1, 2, 2, 2, 3, 4, 5, 6]) :
    aggregateNNA nRows aRows =
      ((2, 3, 1, 1, 2),
       (mkRat 2 10, mkRat 3 10, mkRat 1 10, mkRat 1 10, mkRat 2 10)) := by
  have h1 : nnaExact (nNucleiWithNAgnors aRows) 1 = 2 := by
    rw [nnaExact_eq_countP, hg.countP_eq]
    decide
  have h2 : nnaExact (nNucleiWithNAgnors aRows) 2 = 3 := by
    rw [nnaExact_eq_countP, hg.countP_eq]
    decide
  have h3 : nnaExact (nNucleiWithNAgnors aRows) 3 = 1 := by
    rw [nnaExact_eq_countP, hg.countP_eq]
    decide
  have h4 : nnaExact (nNucleiWithNAgnors aRows) 4 = 1 := by
    rw [nnaExact_eq_countP, hg.countP_eq]
    decide
  have h5 : nnaFivePlus (nNucleiWithNAgnors aRows) = 2 := by
    rw [nnaFivePlus_eq_countP, hg.countP_eq]
    decide
  simp only [aggregateNNA, hN, h1, h2, h3, h4, h5]
  decide

/-- Concrete AgNOR table used by the C6 witness: one image, nine nuclei
with 1,1,2,2,2,3,4,5,6 rows respectively. -/
def aRowsW : List AgnorCsvRow :=
  [⟨"img", 0⟩, ⟨"img", 1⟩,
   ⟨"img", 2⟩, ⟨"img", 2⟩,
   ⟨"img", 3⟩, ⟨"img", 3⟩,
   ⟨"img", 4⟩, ⟨"img", 4⟩,
   ⟨"img", 5⟩, ⟨"img", 5⟩, ⟨"img", 5⟩,
   ⟨"img", 6⟩, ⟨"img", 6⟩, ⟨"img", 6⟩, ⟨"img", 6⟩,
   ⟨"img", 7⟩, ⟨"img", 7⟩, ⟨"img", 7⟩, ⟨"img", 7⟩, ⟨"img", 7⟩,
   ⟨"img", 8⟩, ⟨"img", 8⟩, ⟨"img", 8⟩, ⟨"img", 8⟩, ⟨"img", 8⟩, ⟨"img", 8⟩]

theorem c6_nna_aggregation_witness :
    (List.replicate 10 (⟨1⟩ : NucleusCsvRow)).length = 10
  ∧ (groupAgnorCounts aRowsW).Perm [1, 1, 2, 2, 2, 3, 4, 5, 6]
  ∧ aggregateNNA (List.replicate 10 ⟨1⟩) aRowsW =
      ((2, 3, 1, 1, 2),
       (mkRat 2 10, mkRat 3 10, mkRat 1 10, mkRat 1 10, mkRat 2 10)) := by
  have hperm : (groupAgnorCounts aRowsW).Perm [1, 1, 2, 2, 2, 3, 4, 5, 6] := by
    rw [show groupAgnorCounts aRowsW = [1, 1, 2, 2, 2, 3, 4, 5, 6] by decide]
  exact ⟨rfl, hperm, c6_nna_aggregation _ _ rfl hperm⟩

lemma attrib_ok_spec (pc : Contour → Nat) (inside : Contour → Pt → Bool) (ctx : Ctx)
    (pid : Int) (parent : Contour) :
    ∀ (children : List Contour) (cid : Int) (rs : List Row × List Nat),
      attribChildren pc inside ctx pid parent children cid = .ok rs →
      rs.2 = childSizes pc inside parent children
      ∧ rs.1.length = children.countP (fun ch => ch.any (fun pt => inside parent pt))
      ∧ ∀ r ∈ rs.1, ∃ (cid' : Int) (cpc : Nat) (rq : Rat),
          r = mkChildRow ctx pid cid' cpc rq := by
  intro children
  induction children with
  | nil =>
    intro cid rs h
    simp only [attribChildren] at h
    injection h with h2
    subst h2
    exact ⟨rfl, rfl, fun r hr => absurd hr (List.not_mem_nil r)⟩
  | cons ch rest ih =>
    intro cid rs h
    simp only [attribChildren] at h
    by_cases hin : ch.any (fun pt => inside parent pt)
    · rw [if_pos hin] at h
      by_cases hz : pc parent = 0
      · rw [if_pos hz] at h
        cases h
      · rw [if_neg hz] at h
        cases hrec : attribChildren pc inside ctx pid parent rest (cid + 1) with
        | error e => rw [hrec] at h; cases h
        | ok rs' =>
          rw [hrec] at h
          injection h with h2
          subst h2
          obtain ⟨ihs, ihl, ihr⟩ := ih (cid + 1) rs' hrec
          refine ⟨?_, ?_, ?_⟩
          · show pc ch :: rs'.2 = childSizes pc inside parent (ch :: rest)
            simp only [childSizes, List.filterMap_cons, hin, if_pos]
            rw [ihs]
            rfl
          · show (mkChildRow _ _ _ _ _ :: rs'.1).length = _
            rw [List.countP_cons, if_pos (by simpa using hin)]
            simp only [List.length_cons, ihl]
          · intro r hr
            rcases List.mem_cons.mp hr with hr | hr
            · exact ⟨cid, pc ch, _, hr⟩
            · exact ihr r hr
    · rw [if_neg hin] at h
      obtain ⟨ihs, ihl, ihr⟩ := ih cid rs h
      refine ⟨?_, ?_, ihr⟩
      · rw [ihs]
        simp only [childSizes, List.filterMap_cons]
        rw [if_neg (by simpa using hin)]
      · rw [ihl, List.countP_cons, if_neg (by simpa using hin), Nat.add_zero]

lemma measureLoop_ok_spec (pc : Contour → Nat) (inside : Contour → Pt → Bool) (ctx : Ctx)
    (children : List Contour) :
    ∀ (parents : List Contour) (pid : Int)
      (res : List Row × List Row × Option (List Nat)),
      measureLoop pc inside ctx children parents pid = .ok res →
      res.2.1.length = (parents.map (fun parent =>
        children.countP (fun ch => ch.any (fun pt => inside parent pt)))).sum
      ∧ (∀ r ∈ res.2.1, ∃ (pid' cid' : Int) (cpc : Nat) (rq : Rat),
          r = mkChildRow ctx pid' cid' cpc rq)
      ∧ (∀ (ps : List Contour) (p : Contour), parents = ps ++ [p] →
          res.2.2 = some (childSizes pc inside p children)) := by
  intro parents
  induction parents with
  | nil =>
    intro pid res h
    simp only [measureLoop] at h
    injection h with h2
    subst h2
    refine ⟨rfl, fun r hr => absurd hr (List.not_mem_nil r), fun ps p hps => ?_⟩
    exact absurd hps.symm (List.append_ne_nil_of_right_ne_nil ps (by simp))
  | cons parent rest ih =>
    intro pid res h
    simp only [measureLoop] at h
    cases hat : attribChildren pc inside ctx pid parent children 0 with
    | error e => rw [hat] at h; cases h
    | ok rs =>
      rw [hat] at h
      cases hrec : measureLoop pc inside ctx children rest (pid + 1) with
      | error e => rw [hrec] at h; cases h
      | ok res' =>
        rw [hrec] at h
        injection h with h2
        subst h2
        obtain ⟨has, hal, har⟩ := attrib_ok_spec pc inside ctx pid parent children 0 rs hat
        obtain ⟨ihl, ihr, ihlast⟩ := ih (pid + 1) res' hrec
        refine ⟨?_, ?_, ?_⟩
        · show (rs.1 ++ res'.2.1).length = _
          rw [List.length_append, hal, ihl, List.map_cons, List.sum_cons]
        · intro r hr
          rcases List.mem_append.mp hr with hr | hr
          · obtain ⟨cid', cpc, rq, hreq⟩ := har r hr
            exact ⟨pid, cid', cpc, rq, hreq⟩
          · exact ihr r hr
        · intro ps p hps
          cases ps with
          | nil =>
            have h1 : parent = p := by simpa using congrArg (fun l => List.head? l) hps
            have h2 : rest = [] := by simpa using congrArg (fun l => List.tail l) hps
            subst h2
            simp only [measureLoop] at hrec
            injection hrec with h3
            subst h3
            show some (Option.getD none rs.2) = _
            rw [Option.getD_none, has, h1]
          | cons q ps' =>
            have h1 : rest = ps' ++ [p] := by simpa using congrArg (fun l => List.tail l) hps
            have h2 := ihlast ps' p h1
            show some ((res'.2.2).getD rs.2) = _
            rw [h2]
            rfl

lemma mkChildRow_no_global_ratios (ctx : Ctx) (pid cid : Int) (cpc : Nat) (rq : Rat) :
    getVal (mkChildRow ctx pid cid cpc rq) "greatest_agnor_ratio" = none
  ∧ getVal (mkChildRow ctx pid cid cpc rq) "smallest_agnor_ratio" = none :=
  ⟨rfl, rfl⟩

lemma applyGlobalRatios_mkChildRow (mn mx : Nat) (ctx : Ctx) (pid cid : Int)
    (cpc : Nat) (rq : Rat) :
    getVal (applyGlobalRatios mn mx (mkChildRow ctx pid cid cpc rq)) "agnor_pixel_count"
      = some (.i (cpc : Int))
  ∧ getVal (applyGlobalRatios mn mx (mkChildRow ctx pid cid cpc rq)) "greatest_agnor_ratio"
      = some (.q (ratDiv ((cpc : Int) : Rat) ((mx : Nat) : Rat)))
  ∧ getVal (applyGlobalRatios mn mx (mkChildRow ctx pid cid cpc rq)) "smallest_agnor_ratio"
      = some (.q (ratDiv ((cpc : Int) : Rat) ((mn : Nat) : Rat))) :=
  ⟨rfl, rfl, rfl⟩

/-- C2, amended: in `get_contour_measurements` each child contour is
attributed independently per parent — it yields a row for a parent
exactly when one of its points lies inside that parent, so the number of
child rows is the sum over all parents of the number of children with a
point inside that parent (a child inside several parents is counted, and
produces a row, once per such parent). -/
theorem c2_per_parent_attribution (pc : Contour → Nat) (inside : Contour → Pt → Bool)
    (ctx : Ctx) (si : Int) (parents children : List Contour) (pr cr : List Row)
    (h : get_contour_measurements pc inside ctx si parents children = .ok (pr, cr)) :
    cr.length = (parents.map (fun parent =>
      children.countP (fun ch => ch.any (fun pt => inside parent pt)))).sum := by
  rw [get_contour_measurements] at h
  cases hm : measureLoop pc inside ctx children parents si with
  | error e => rw [hm] at h; cases h
  | ok res =>
    rw [hm] at h
    dsimp only at h
    obtain ⟨hlen, _, _⟩ := measureLoop_ok_spec pc inside ctx children parents si res hm
    cases hcs : res.2.2 with
    | none => rw [hcs] at h; cases h
    | some cs =>
      rw [hcs] at h
      dsimp only at h
      by_cases hl : cs.length > 0
      · rw [if_pos hl] at h
        injection h with h2
        have hcr : cr = res.2.1.map (applyGlobalRatios (npMin cs) (npMax cs)) :=
          (congrArg Prod.snd h2).symm
        rw [hcr, List.length_map, hlen]
      · rw [if_neg hl] at h
        injection h with h2
        have hcr : cr = res.2.1 := (congrArg Prod.snd h2).symm
        rw [hcr, hlen]

/-- C1, amended: after all parents are processed, the two extra ratios of
every child row are computed from the pixel counts of the children of the
**last** parent only (the source re-initialises `contours_size` inside
the parent loop): when the last parent has attributed children, every
child row gets `agnor_pixel_count / max` and `agnor_pixel_count / min`
over those sizes; when the last parent has none, the ratio pass is
skipped entirely and no child row has the two ratio fields. -/
theorem c1_last_parent_ratio_scope (pc : Contour → Nat) (inside : Contour → Pt → Bool)
    (ctx : Ctx) (si : Int) (ps : List Contour) (p : Contour) (children : List Contour)
    (pr cr : List Row)
    (h : get_contour_measurements pc inside ctx si (ps ++ [p]) children = .ok (pr, cr)) :
    (childSizes pc inside p children ≠ [] →
      ∀ r ∈ cr, ∃ a : Nat,
        getVal r "agnor_pixel_count" = some (.i (a : Int))
        ∧ getVal r "greatest_agnor_ratio" =
            some (.q (ratDiv ((a : Int) : Rat) ((npMax (childSizes pc inside p children) : Nat) : Rat)))
        ∧ getVal r "smallest_agnor_ratio" =
            some (.q (ratDiv ((a : Int) : Rat) ((npMin (childSizes pc inside p children) : Nat) : Rat))))
  ∧ (childSizes pc inside p children = [] →
      ∀ r ∈ cr, getVal r "greatest_agnor_ratio" = none
        ∧ getVal r "smallest_agnor_ratio" = none) := by
  rw [get_contour_measurements] at h
  cases hm : measureLoop pc inside ctx children (ps ++ [p]) si with
  | error e => rw [hm] at h; cases h
  | ok res =>
    rw [hm] at h
    dsimp only at h
    obtain ⟨_, hrows, hlast⟩ := measureLoop_ok_spec pc inside ctx children (ps ++ [p]) si res hm
    rw [hlast ps p rfl] at h
    dsimp only at h
    by_cases hl : (childSizes pc inside p children).length > 0
    · rw [if_pos hl] at h
      injection h with h2
      have hcr : cr = res.2.1.map
          (applyGlobalRatios (npMin (childSizes pc inside p children))
            (npMax (childSizes pc inside p children))) :=
        (congrArg Prod.snd h2).symm
      constructor
      · intro _ r hr
        rw [hcr] at hr
        obtain ⟨r0, hr0, hreq⟩ := List.mem_map.mp hr
        obtain ⟨pid', cid', cpc, rq, hshape⟩ := hrows r0 hr0
        subst hshape
        subst hreq
        exact ⟨cpc, (applyGlobalRatios_mkChildRow _ _ ctx pid' cid' cpc rq).1,
          (applyGlobalRatios_mkChildRow _ _ ctx pid' cid' cpc rq).2.1,
          (applyGlobalRatios_mkChildRow _ _ ctx pid' cid' cpc rq).2.2⟩
      · intro hnil
        rw [hnil] at hl
        exact absurd hl (by simp)
    · rw [if_neg hl] at h
      injection h with h2
      have hcr : cr = res.2.1 := (congrArg Prod.snd h2).symm
      constructor
      · intro hne
        have : childSizes pc inside p children = [] :=
          List.length_eq_zero.mp (Nat.eq_zero_of_not_pos hl)
        exact absurd this hne
      · intro _ r hr
        rw [hcr] at hr
        obtain ⟨pid', cid', cpc, rq, hshape⟩ := hrows r hr
        subst hshape
        exact mkChildRow_no_global_ratios ctx pid' cid' cpc rq

/-- Context record used by concrete measurement examples. -/
def ctx0 : Ctx :=
  ⟨"r", "p", "m", "valid", "unknown", "", "", "", "nucleus", "cluster"⟩

/-- First parent contour of the C1 example. -/
def pA : Contour := [((0 : Int), (0 : Int))]

/-- Second (last) parent contour of the C1 example. -/
def pB : Contour := [((5 : Int), (0 : Int))]

/-- Child contour of pixel count 2, inside `pA` only. -/
def cA : Contour := [((1 : Int), (0 : Int))]

/-- Child contour of pixel count 4, inside `pB` only. -/
def cB : Contour := [((6 : Int), (0 : Int))]

/-- Containment oracle of the C1 example: `cA`'s point lies in `pA`,
`cB`'s point lies in `pB`. -/
def insideC1 : Contour → Pt → Bool := fun parent pt =>
  decide ((parent = pA ∧ pt = ((1 : Int), (0 : Int)))
    ∨ (parent = pB ∧ pt = ((6 : Int), (0 : Int))))

/-- Pixel-count oracle of the C1 example. -/
def pcC1 : Contour → Nat := fun c =>
  if c = pA then 10 else if c = pB then 10 else if c = cA then 2 else
  if c = cB then 4 else 0

/-- C1, counterexample: with two parents, `pA` containing a child of
pixel count 2 and the last parent `pB` containing a child of pixel count
4, the global child pixel counts are [2, 4] (min 2, max 4), so the claim
says the first child row's ratios are 2/4 and 2/2 = 1; the code computes
both of that row's ratios from the last parent's only child size 4,
yielding 2/4 = 1/2 for the smallest-child ratio as well — not 1. -/
theorem c1_counterexample :
    ((get_contour_measurements pcC1 insideC1 ctx0 0 [pA, pB] [cA, cB]).toOption.map
        (fun res => res.2.map (fun r =>
          (getVal r "agnor_pixel_count", getVal r "greatest_agnor_ratio",
           getVal r "smallest_agnor_ratio"))))
      = some [(some (.i 2), some (.q (mkRat 1 2)), some (.q (mkRat 1 2))),
              (some (.i 4), some (.q 1), some (.q 1))]
  ∧ npMin [2, 4] = 2 ∧ npMax [2, 4] = 4
  ∧ ratDiv ((2 : Int) : Rat) ((2 : Nat) : Rat) = 1
  ∧ Value.q (mkRat 1 2) ≠ Value.q 1 := by
  decide

/-- Parent contours of the C2 example: both contain the child's point. -/
def pD : Contour := [((0 : Int), (0 : Int))]

/-- Second parent contour of the C2 example. -/
def pE : Contour := [((5 : Int), (0 : Int))]

/-- The single child contour of the C2 example. -/
def cC : Contour := [((1 : Int), (0 : Int))]

/-- Containment oracle of the C2 example: every parent contains the
point `(1, 0)`. -/
def insideC2 : Contour → Pt → Bool := fun _ pt =>
  decide (pt = ((1 : Int), (0 : Int)))

/-- Constant pixel-count oracle of the C2 example. -/
def pcC2 : Contour → Nat := fun _ => 10

/-- C2, counterexample: a single child contour whose point lies inside
both parents produces a row under parent 0 **and** a row under parent 1
— the claim that a child is never attributed to more than one parent is
false on the code. -/
theorem c2_counterexample :
    ((get_contour_measurements pcC2 insideC2 ctx0 0 [pD, pE] [cC]).toOption.map
        (fun res => res.2.map (fun r => getVal r "nucleus")))
      = some [some (.i 0), some (.i 1)]
  ∧ (0 : Int) ≠ 1 := by
  decide

/-- The record lists the C1 example evaluates to. -/
def c1resW : List Row × List Row :=
  (get_contour_measurements pcC1 insideC1 ctx0 0 ([pA] ++ [pB]) [cA, cB]).toOption.getD ([], [])

theorem c1_last_parent_ratio_scope_witness :
    get_contour_measurements pcC1 insideC1 ctx0 0 ([pA] ++ [pB]) [cA, cB] =
      .ok (c1resW.1, c1resW.2)
  ∧ ((childSizes pcC1 insideC1 pB [cA, cB] ≠ [] →
      ∀ r ∈ c1resW.2, ∃ a : Nat,
        getVal r "agnor_pixel_count" = some (.i (a : Int))
        ∧ getVal r "greatest_agnor_ratio" =
            some (.q (ratDiv ((a : Int) : Rat)
              ((npMax (childSizes pcC1 insideC1 pB [cA, cB]) : Nat) : Rat)))
        ∧ getVal r "smallest_agnor_ratio" =
            some (.q (ratDiv ((a : Int) : Rat)
              ((npMin (childSizes pcC1 insideC1 pB [cA, cB]) : Nat) : Rat))))
     ∧ (childSizes pcC1 insideC1 pB [cA, cB] = [] →
        ∀ r ∈ c1resW.2, getVal r "greatest_agnor_ratio" = none
          ∧ getVal r "smallest_agnor_ratio" = none)) :=
  ⟨rfl, c1_last_parent_ratio_scope pcC1 insideC1 ctx0 0 [pA] pB [cA, cB]
    c1resW.1 c1resW.2 rfl⟩

/-- The record lists the C2 example evaluates to. -/
def c2resW : List Row × List Row :=
  (get_contour_measurements pcC2 insideC2 ctx0 0 [pD, pE] [cC]).toOption.getD ([], [])

theorem c2_per_parent_attribution_witness :
    get_contour_measurements pcC2 insideC2 ctx0 0 [pD, pE] [cC] =
      .ok (c2resW.1, c2resW.2)
  ∧ c2resW.2.length = ([pD, pE].map (fun parent =>
      [cC].countP (fun ch => ch.any (fun pt => insideC2 parent pt)))).sum :=
  ⟨rfl, c2_per_parent_attribution pcC2 insideC2 ctx0 0 [pD, pE] [cC]
    c2resW.1 c2resW.2 rfl⟩

lemma getVal_setField_ne (k : String) (v : Value) (k' : String) (h : k' ≠ k) :
    ∀ r : Row, getVal (setField r k v) k' = getVal r k' := by
  intro r
  induction r with
  | nil => rfl
  | cons kv rest ih =>
    obtain ⟨k1, v1⟩ := kv
    simp only [setField, List.map_cons]
    by_cases hk : k1 = k
    · subst hk
      rw [if_pos rfl]
      simp only [getVal, if_neg (fun hh : k1 = k' => h (hh.symm)), if_neg]
      exact ih
    · rw [if_neg hk]
      simp only [getVal]
      by_cases hk' : k1 = k'
      · rw [if_pos hk', if_pos hk']
      · rw [if_neg hk', if_neg hk']
        exact ih

lemma zip_getElem? {α β : Type} :
    ∀ (as : List α) (bs : List β) (i : Nat) (a : α) (b : β),
      as[i]? = some a → bs[i]? = some b → (as.zip bs)[i]? = some (a, b) := by
  intro as
  induction as with
  | nil => intro bs i a b ha; simp at ha
  | cons a' as' ih =>
    intro bs i a b ha hb
    cases bs with
    | nil => simp at hb
    | cons b' bs' =>
      cases i with
      | zero =>
        simp only [List.getElem?_cons_zero, Option.some.injEq] at ha hb
        subst ha; subst hb
        rw [List.zip_cons_cons, List.getElem?_cons_zero]
      | succ n =>
        simp only [List.getElem?_cons_succ] at ha hb
        rw [List.zip_cons_cons, List.getElem?_cons_succ]
        exact ih bs' n a b ha hb

/-- C7, amended: `classify_agnor` returns an empty input unchanged, and on
non-empty input writes the predictor's output **verbatim** into each
row's `type` field positionally, preserving every other field — no
0→"cluster" / 1→"satellite" conversion happens inside this function (the
docstring's mapping is only the meaning of the labels). -/
theorem c7_verbatim_label_write (predict : List (List Rat) → List Value)
    (contours : List Row) (i : Nat) (r : Row) (p : Value)
    (hr : contours[i]? = some r)
    (hp : (predict (classifyFeatures contours))[i]? = some p) :
    classify_agnor predict [] = []
  ∧ (classify_agnor predict contours)[i]? = some (setField r "type" p)
  ∧ (∀ k : String, k ≠ "type" → getVal (setField r "type" p) k = getVal r k)
  ∧ (getVal r "type" ≠ none → getVal (setField r "type" p) "type" = some p) := by
  have hne : ¬ contours.length = 0 := by
    intro h0
    rw [List.length_eq_zero.mp h0] at hr
    simp at hr
  refine ⟨rfl, ?_, fun k hk => getVal_setField_ne "type" p k hk r,
    fun hmem => getVal_setField_self "type" p r hmem⟩
  rw [classify_agnor, if_neg hne]
  rw [List.getElem?_map, zip_getElem? contours _ i r p hr hp]
  rfl

/-- A full 15-column AgNOR row used by the C7 examples. -/
def rowF : Row := AGNOR_COLUMNS.zip
  [.s "r", .s "p", .s "m", .s "valid", .s "unknown", .s "", .s "", .s "",
   .i 0, .i 0, .i 50, .s "cluster", .q 1, .q 1, .q 1]

/-- A classifier artifact predicting label 0 for every row. -/
def predictZero : List (List Rat) → List Value := fun fs => fs.map (fun _ => .i 0)

/-- A classifier artifact predicting label 1 for every row. -/
def predictOne : List (List Rat) → List Value := fun fs => fs.map (fun _ => .i 1)

/-- C7, counterexample: with a classifier artifact predicting 0, the row's
`type` field afterwards holds the raw prediction 0 — not the string
"cluster" the claim says is recorded. -/
theorem c7_counterexample :
    (classify_agnor predictZero [rowF]).map (fun r => getVal r "type")
      = [some (.i 0)]
  ∧ Value.i 0 ≠ Value.s "cluster" := by
  decide

theorem c7_verbatim_label_write_witness :
    ([rowF] : List Row)[0]? = some rowF
  ∧ (predictOne (classifyFeatures [rowF]))[0]? = some (Value.i 1)
  ∧ (classify_agnor predictOne [] = []
     ∧ (classify_agnor predictOne [rowF])[0]? = some (setField rowF "type" (Value.i 1))
     ∧ (∀ k : String, k ≠ "type" →
          getVal (setField rowF "type" (Value.i 1)) k = getVal rowF k)
     ∧ (getVal rowF "type" ≠ none →
          getVal (setField rowF "type" (Value.i 1)) "type" = some (Value.i 1))) :=
  ⟨rfl, rfl, c7_verbatim_label_write predictOne [rowF] 0 rowF (Value.i 1) rfl rfl⟩
